import Mathlib

/-!
Verification of the Eduka downloader core (src/main.rs) against its
natural-language specification.

The development shallowly embeds the two algorithmic cores of the program:

* the bounded-concurrency page-download pipeline
  (`save_page_to_file`, `download_teaching_tool`, `download_package`), and
* the recursive bookmark-tree-to-PDF-outline mapper (`add_bookmarks` inside
  `prepare_teaching_tool`), with its page-shift correction and
  first-child fallback.

Machine integers are modelled as `Nat`/`Int` with explicit `% 2^32`
truncation where the Rust source performs an `as u32` cast.  Network and
filesystem effects are modelled by explicit traces / state passing.
-/

set_option maxHeartbeats 1000000

namespace Eduka

/-- Error enumeration of the program (`enum EdukaError` in src/main.rs). -/
inductive EdukaError where
  | unknown
  | jsonError
  | internetError
  | positionOffsetError
  | unexpectedResponse
  | pdfError
  | ioError
deriving DecidableEq, Repr

deriving instance DecidableEq for Except

/-- A table-of-contents node (`struct Bookmark` in src/main.rs): a display
title, a `startPage : u32` (serde `default`, so an absent field is the
sentinel `0`), and the ordered nested children (`lessons`). -/
inductive Bookmark where
  | mk (title : String) (startPage : Nat) (lessons : List Bookmark)
deriving Repr

def Bookmark.title : Bookmark → String
  | .mk t _ _ => t

def Bookmark.startPage : Bookmark → Nat
  | .mk _ s _ => s

def Bookmark.lessons : Bookmark → List Bookmark
  | .mk _ _ l => l

/-- Eliminator for `List Bookmark` giving induction hypotheses for both the
children of the head node and the tail, matching the recursion pattern of
`add_bookmarks`. -/
def bookmarkListInd {motive : List Bookmark → Prop}
    (hnil : motive [])
    (hcons : ∀ t s ls rest, motive ls → motive rest → motive (.mk t s ls :: rest)) :
    ∀ bs, motive bs
  | [] => hnil
  | .mk t s ls :: rest => hcons t s ls rest (bookmarkListInd hnil hcons ls) (bookmarkListInd hnil hcons rest)

/-- Number of nodes of a bookmark forest. -/
def countNodes : List Bookmark → Nat
  | [] => 0
  | .mk _ _ ls :: rest => 1 + countNodes ls + countNodes rest

/-- Pre-order (parent first, children in given order, then later siblings)
title sequence of a bookmark forest. -/
def preorderTitles : List Bookmark → List String
  | [] => []
  | .mk t _ ls :: rest => t :: (preorderTitles ls ++ preorderTitles rest)

/-! ### Title sanitization

The Rust code sanitizes each title with `unidecode::unidecode` before storing
it (src/main.rs line 288).  `unidecode` is an external crate, modelled here
from its documented behavior: each character is transliterated independently;
ASCII characters (code points below 128) map to themselves; non-ASCII
characters map to a fixed ASCII replacement string (the table below carries
the Lithuanian letters relevant to this source platform); characters without
a table entry map to the empty string. -/

/-- Transliteration table excerpt (all outputs are ASCII). -/
def unidecodeTable : List (Char × List Char) :=
  [('Ą', ['A']), ('ą', ['a']), ('Č', ['C']), ('č', ['c']),
   ('Ę', ['E']), ('ę', ['e']), ('Ė', ['E']), ('ė', ['e']),
   ('Į', ['I']), ('į', ['i']), ('Š', ['S']), ('š', ['s']),
   ('Ų', ['U']), ('ų', ['u']), ('Ū', ['U']), ('ū', ['u']),
   ('Ž', ['Z']), ('ž', ['z'])]

def tableLookup (c : Char) : List (Char × List Char) → List Char
  | [] => []
  | p :: rest => if c = p.1 then p.2 else tableLookup c rest

def unidecodeChar (c : Char) : List Char :=
  if c.toNat < 128 then [c] else tableLookup c unidecodeTable

def unidecodeChars (l : List Char) : List Char :=
  l.flatMap unidecodeChar

/-- Model of `unidecode::unidecode`. -/
def unidecode (s : String) : String :=
  String.mk (unidecodeChars s.data)

/-! ### Outline node resolution and the outline builder

`add_bookmarks` (src/main.rs lines 262-294) computes for each node
`page_num = ({fallback value} as i64 - page_shift) as u32`, looks the result
up in `doc.get_pages()` (a map whose keys are the physical page numbers
`1..=pageCount` of the assembled document) and fails the whole call with
`EdukaError::PositionOffsetError` (the spec's `PageOffsetMismatch`) when the
page is absent; on success it creates a `lopdf::Bookmark` carrying the
unidecoded title under the given parent and recurses into the children with
the fresh bookmark id as their parent. -/

/-- The page value the code starts from: `startPage` if non-zero, otherwise
the first child's `startPage` if a child exists, otherwise the literal `0`
(the `else` branch of the inner `if let`). -/
def pageValue (b : Bookmark) : Nat :=
  if b.startPage = 0 then
    match b.lessons with
    | [] => 0
    | c :: _ => c.startPage
  else b.startPage

/-- `(pageValue as i64 - page_shift) as u32`: exact integer subtraction
followed by truncation to 32 bits (Euclidean `%` on `Int` is non-negative). -/
def physPage (shift : Int) (b : Bookmark) : Nat :=
  (((pageValue b : Int) - shift) % 4294967296).toNat

/-- The lookup `doc.get_pages().get(&page_num).ok_or(PositionOffsetError)`:
the assembled document's pages are numbered `1..=pageCount`. -/
def resolvePage (pageCount : Nat) (shift : Int) (b : Bookmark) : Except EdukaError Nat :=
  let pn := physPage shift b
  if 1 ≤ pn ∧ pn ≤ pageCount then .ok pn else .error .positionOffsetError

/-- A created outline record: fresh handle, sanitized title, physical target
page, and the handle of the parent entry (`None` at document root). -/
structure Entry where
  id : Nat
  title : String
  page : Nat
  parent : Option Nat
deriving DecidableEq, Repr

/-- The recursive `fn add_bookmarks` loop.  State is the next fresh bookmark
handle plus the entries created so far (in creation order); the second
component of the result is the error with which the call returned early
(`?` propagation), or `none` when the whole forest was processed. -/
def addBookmarks (pageCount : Nat) (shift : Int) :
    List Bookmark → Option Nat → Nat × List Entry → (Nat × List Entry) × Option EdukaError
  | [], _, st => (st, none)
  | .mk t s ls :: rest, parent, st =>
    match resolvePage pageCount shift (.mk t s ls) with
    | .error e => (st, some e)
    | .ok pn =>
      let st1 : Nat × List Entry := (st.1 + 1, st.2 ++ [⟨st.1, unidecode t, pn, parent⟩])
      match addBookmarks pageCount shift ls (some st.1) st1 with
      | (st2, none) => addBookmarks pageCount shift rest parent st2
      | (st2, some e) => (st2, some e)

/-- Entry list built following the words of spec section 4.4: pre-order,
each node yielding one entry with its sanitized title, resolved physical
page and its parent's handle, children using the new entry as parent.
Refinement target for the outline builder. -/
def specOutline (shift : Int) : List Bookmark → Option Nat → Nat → List Entry
  | [], _, _ => []
  | .mk t s ls :: rest, parent, n =>
    ⟨n, unidecode t, physPage shift (.mk t s ls), parent⟩
      :: (specOutline shift ls (some n) (n + 1)
          ++ specOutline shift rest parent (n + 1 + countNodes ls))

/-! ### Page file names and the numeric sort of the assembler

`save_page_to_file` writes page `i` to `{book_dir}/{i}.png`
(`page_number.to_string() + ".png"`); `prepare_teaching_tool` assembles
`$(ls *.png | sort -n)`, i.e. the files ordered by the numeric value of the
leading digit run of each name. -/

/-- Decimal digits of `n`, least significant first (the digits produced by
the integer-to-string conversion). -/
def natDigitsRev (n : Nat) : List Char :=
  if h : n < 10 then [Nat.digitChar n]
  else Nat.digitChar (n % 10) :: natDigitsRev (n / 10)
decreasing_by omega

/-- Decimal rendering of an unsigned integer (Rust `u64::to_string`). -/
def natToString (n : Nat) : String :=
  String.mk (natDigitsRev n).reverse

/-- Base name of the file written for page index `i`. -/
def fileName (i : Nat) : String :=
  natToString i ++ ".png"

/-- Value of the leading digit run of a character list (accumulator form):
the key `sort -n` compares. -/
def numKeyAux : List Char → Nat → Nat
  | [], acc => acc
  | c :: rest, acc =>
    if 48 ≤ c.toNat ∧ c.toNat ≤ 57 then numKeyAux rest (acc * 10 + (c.toNat - 48)) else acc

/-- Numeric sort key of a file name. -/
def numKey (s : String) : Nat :=
  numKeyAux s.data 0

/-! ### The batch download coordinator

`download_teaching_tool` (src/main.rs lines 199-218) spawns one fetch task
per page url, and at every index `i` with `i % 10 == 0` awaits all handles
spawned so far and clears them; after the loop it awaits the remaining
handles.  A batch is the set of task indices awaited together: all tasks of
a batch are in flight concurrently, and a batch fully drains before the next
task is spawned. -/

/-- One pass of the spawn/await loop: `pending` are the currently spawned,
not yet awaited task indices. -/
def batchLoop : List Nat → List Nat → List (List Nat)
  | [], pending => if pending.isEmpty then [] else [pending]
  | i :: rest, pending =>
    let pending1 := pending ++ [i]
    if i % 10 = 0 then pending1 :: batchLoop rest [] else batchLoop rest pending1

/-- The batches produced by the code for `n` page urls. -/
def codeBatches (n : Nat) : List (List Nat) :=
  batchLoop (List.range n) []

/-- Batch partition following the words of the claim: a new group starts
every 10 locators by original sequence position, i.e. group `k` holds the
indices `i` with `i / 10 = k`. -/
def specBatches (n : Nat) : List (List Nat) :=
  (List.range ((n + 9) / 10)).map (fun k => (List.range n).filter (fun i => i / 10 = k))

/-- Base names of the page files written by the coordinator for `n` page
urls, in spawn order. -/
def writtenFiles (n : Nat) : List String :=
  ((codeBatches n).flatten).map fileName

/-! ### Filesystem idempotence of the coordinator -/

/-- Minimal filesystem state: existing directories and files. -/
structure FS where
  dirs : List String
  files : List String
deriving DecidableEq, Repr

/-- Filesystem behavior of `download_teaching_tool`: if the destination
directory exists the whole batch is skipped with success (`SKIPPING`);
otherwise the directory is created and one page file per url is written.
The middle component counts the page-file writes performed. -/
def downloadTeachingTool (fs : FS) (bookDir : String) (pageUrls : List String) :
    FS × Nat × Except EdukaError Unit :=
  if bookDir ∈ fs.dirs then (fs, 0, .ok ())
  else
    ({ dirs := bookDir :: fs.dirs,
       files := fs.files ++ ((codeBatches pageUrls.length).flatten).map
         (fun i => bookDir ++ "/" ++ fileName i) },
     pageUrls.length, .ok ())

/-! ### The page fetcher -/

/-- Outcome of one iteration of the retry loop of `save_page_to_file`:
the `client.get(url).send().await` either fails (`sendFailure`, the
`if let Ok` falls through and the loop repeats), or succeeds and the body
read `r.bytes().await` either fails (`bodyFailure`, the following `unwrap`
panics) or yields the payload. -/
inductive AttemptResult where
  | sendFailure
  | bodyFailure
  | success (payload : List Nat)
deriving DecidableEq, Repr

/-- Observable events of `save_page_to_file`, in order. -/
inductive FetchEvent where
  | createFile
  | request
  | write (payload : List Nat)
  | flush
deriving DecidableEq, Repr

/-- How a run of `save_page_to_file` ends. -/
inductive FetchOutcome where
  | fileWritten (payload : List Nat)
  | panicked
  | stillRetrying
  | createFailed
deriving DecidableEq, Repr

/-- The `loop` of `save_page_to_file`, driven by the outcome of each
successive attempt; `stillRetrying` is the run that has consumed the given
attempts without returning. -/
def fetchLoop : List AttemptResult → FetchOutcome × List FetchEvent
  | [] => (.stillRetrying, [])
  | .sendFailure :: rest =>
    let r := fetchLoop rest
    (r.1, .request :: r.2)
  | .bodyFailure :: _ => (.panicked, [.request])
  | .success payload :: _ => (.fileWritten payload, [.request, .write payload, .flush])

/-- `save_page_to_file`: `File::create` first (truncating creation); on
creation failure the error is printed and the function returns with no
retry loop at all; on creation success the retry loop runs. -/
def savePageToFile (createOk : Bool) (attempts : List AttemptResult) :
    FetchOutcome × List FetchEvent :=
  if createOk then
    let r := fetchLoop attempts
    (r.1, .createFile :: r.2)
  else (.createFailed, [])

/-- Content of the target file after a list of events (`none` = no file). -/
def replayContent : List FetchEvent → Option (List Nat) → Option (List Nat)
  | [], f => f
  | .createFile :: es, _ => replayContent es (some [])
  | .write payload :: es, _ => replayContent es (some payload)
  | .request :: es, f => replayContent es f
  | .flush :: es, f => replayContent es f

/-! ### Per-book isolation in a package run

`download_package` (src/main.rs lines 223-238) runs
`download_teaching_tool(..)?` for each teaching tool in a loop, and
`prepare_package` (lines 309-314) runs `prepare_teaching_tool(..)?`
likewise: the `?` returns from the surrounding function at the first
failure.  The loop is modelled over the per-tool results; the first
component records for each tool whether its body was ever entered. -/
def downloadPackageLoop : List (Option EdukaError) → List Bool × Option EdukaError
  | [] => ([], none)
  | none :: rest =>
    let r := downloadPackageLoop rest
    (true :: r.1, r.2)
  | some e :: rest => (true :: rest.map (fun _ => false), some e)

/-! ## Helper lemmas -/

theorem tableLookup_ascii (c : Char) :
    ∀ t, (∀ p ∈ t, ∀ c2 ∈ p.2, c2.toNat < 128) → ∀ c2 ∈ tableLookup c t, c2.toNat < 128 := by
  intro t
  induction t with
  | nil => intro _ c2 h2; simp [tableLookup] at h2
  | cons p rest ih =>
    intro h c2 h2
    simp only [tableLookup] at h2
    by_cases hc : c = p.1
    · rw [if_pos hc] at h2
      exact h p (List.mem_cons_self p rest) c2 h2
    · rw [if_neg hc] at h2
      exact ih (fun q hq => h q (List.mem_cons_of_mem p hq)) c2 h2

theorem unidecodeTable_ascii : ∀ p ∈ unidecodeTable, ∀ c2 ∈ p.2, c2.toNat < 128 := by decide

theorem unidecodeChar_ascii : ∀ c c2, c2 ∈ unidecodeChar c → c2.toNat < 128 := by
  intro c c2 h
  unfold unidecodeChar at h
  split at h
  · simp only [List.mem_singleton] at h
    subst h; assumption
  · exact tableLookup_ascii c unidecodeTable unidecodeTable_ascii c2 h

theorem unidecodeChar_of_ascii (c : Char) (h : c.toNat < 128) : unidecodeChar c = [c] := by
  simp [unidecodeChar, h]

theorem unidecodeChars_ascii : ∀ l c2, c2 ∈ unidecodeChars l → c2.toNat < 128 := by
  intro l c2 h
  simp only [unidecodeChars, List.mem_flatMap] at h
  obtain ⟨c, _, hc⟩ := h
  exact unidecodeChar_ascii c c2 hc

theorem unidecodeChars_fixed : ∀ l, (∀ c ∈ l, c.toNat < 128) → unidecodeChars l = l := by
  intro l
  induction l with
  | nil => intro _; rfl
  | cons c rest ih =>
    intro h
    have hc : unidecodeChar c = [c] := unidecodeChar_of_ascii c (h c (List.mem_cons_self c rest))
    have hr := ih (fun x hx => h x (List.mem_cons_of_mem c hx))
    simp only [unidecodeChars, List.flatMap_cons, hc, List.singleton_append] at hr ⊢
    rw [hr]

theorem unidecodeChars_idem (l : List Char) : unidecodeChars (unidecodeChars l) = unidecodeChars l :=
  unidecodeChars_fixed _ (unidecodeChars_ascii l)

theorem data_unidecode (s : String) : (unidecode s).data = unidecodeChars s.data := rfl

theorem fetchLoop_allSend :
    ∀ l, (∀ a ∈ l, a = AttemptResult.sendFailure) →
      fetchLoop l = (.stillRetrying, l.map fun _ => FetchEvent.request) := by
  intro l
  induction l with
  | nil => intro _; rfl
  | cons a rest ih =>
    intro h
    have ha : a = AttemptResult.sendFailure := h a (List.mem_cons_self a rest)
    subst ha
    simp only [fetchLoop, ih (fun x hx => h x (List.mem_cons_of_mem _ hx)), List.map_cons]

theorem fetchLoop_split :
    ∀ pre, (∀ a ∈ pre, a = AttemptResult.sendFailure) → ∀ l2,
      fetchLoop (pre ++ l2)
        = ((fetchLoop l2).1, (pre.map fun _ => FetchEvent.request) ++ (fetchLoop l2).2) := by
  intro pre
  induction pre with
  | nil => intro _ l2; simp
  | cons a rest ih =>
    intro h l2
    have ha : a = AttemptResult.sendFailure := h a (List.mem_cons_self a rest)
    subst ha
    simp only [List.cons_append, fetchLoop, List.append_eq,
      ih (fun x hx => h x (List.mem_cons_of_mem _ hx)) l2, List.map_cons]

theorem fetchLoop_no_write :
    ∀ l, (∀ p, AttemptResult.success p ∉ l) → ∀ p, FetchEvent.write p ∉ (fetchLoop l).2 := by
  intro l
  induction l with
  | nil => intro _ p h; simp [fetchLoop] at h
  | cons a rest ih =>
    intro h p
    match a with
    | .sendFailure =>
      simp only [fetchLoop, List.mem_cons]
      rintro (h1 | h1)
      · exact FetchEvent.noConfusion h1
      · exact ih (fun q hmem => h q (List.mem_cons_of_mem _ hmem)) p h1
    | .bodyFailure =>
      simp only [fetchLoop, List.mem_singleton]
      intro h1
      exact FetchEvent.noConfusion h1
    | .success q => exact absurd (List.mem_cons_self _ rest) (h q)

theorem fetchLoop_no_create : ∀ l, FetchEvent.createFile ∉ (fetchLoop l).2 := by
  intro l
  induction l with
  | nil => simp [fetchLoop]
  | cons a rest ih =>
    match a with
    | .sendFailure =>
      simp only [fetchLoop, List.mem_cons]
      rintro (h1 | h1)
      · exact FetchEvent.noConfusion h1
      · exact ih h1
    | .bodyFailure => simp [fetchLoop]
    | .success q => simp [fetchLoop]

theorem replayContent_no_mutation :
    ∀ es, (∀ p, FetchEvent.write p ∉ es) → FetchEvent.createFile ∉ es →
      ∀ f, replayContent es f = f := by
  intro es
  induction es with
  | nil => intro _ _ f; rfl
  | cons e rest ih =>
    intro hw hc f
    match e with
    | .createFile => exact absurd (List.mem_cons_self _ rest) hc
    | .write p => exact absurd (List.mem_cons_self _ rest) (hw p)
    | .request =>
      simp only [replayContent]
      exact ih (fun p hp => hw p (List.mem_cons_of_mem _ hp))
        (fun hp => hc (List.mem_cons_of_mem _ hp)) f
    | .flush =>
      simp only [replayContent]
      exact ih (fun p hp => hw p (List.mem_cons_of_mem _ hp))
        (fun hp => hc (List.mem_cons_of_mem _ hp)) f

/-! ## Claim C4 -/

/-- Claim C4, counterexample: a transient transfer failure while reading the
response body (after `send()` succeeded) is not retried and does not leave
the fetcher retrying: the `unwrap` on `r.bytes()` panics, a terminal
outcome, falsifying "a transient transfer failure is retried immediately
and indefinitely and is never surfaced as a terminal error". -/
theorem savePageToFile_body_failure_counterexample :
    (savePageToFile true [AttemptResult.bodyFailure]).1 = FetchOutcome.panicked
  ∧ ¬ ((savePageToFile true [AttemptResult.bodyFailure]).1 = FetchOutcome.stillRetrying
       ∨ ∃ p, (savePageToFile true [AttemptResult.bodyFailure]).1 = FetchOutcome.fileWritten p) := by
  constructor
  · rfl
  · rintro (h | ⟨p, h⟩) <;> exact FetchOutcome.noConfusion h

/-- Claim C4, amended: on each attempt the fetcher opens a connection; a
failed connection attempt (send error) is retried immediately and
indefinitely; when an attempt's response and body read succeed, the full
payload is written and flushed and the retry loop terminates; but a failure
while reading the response body of a successful response panics the process
(a terminal outcome) instead of being retried. -/
theorem savePageToFile_characterization :
    ∀ attempts : List AttemptResult,
      ((∀ a ∈ attempts, a = AttemptResult.sendFailure) →
        savePageToFile true attempts
          = (.stillRetrying, .createFile :: attempts.map fun _ => FetchEvent.request))
    ∧ (∀ pre payload rest, (∀ a ∈ pre, a = AttemptResult.sendFailure) →
        attempts = pre ++ AttemptResult.success payload :: rest →
        savePageToFile true attempts
          = (.fileWritten payload,
             .createFile :: ((pre.map fun _ => FetchEvent.request)
               ++ [.request, .write payload, .flush])))
    ∧ (∀ pre rest, (∀ a ∈ pre, a = AttemptResult.sendFailure) →
        attempts = pre ++ AttemptResult.bodyFailure :: rest →
        (savePageToFile true attempts).1 = .panicked) := by
  intro attempts
  refine ⟨?_, ?_, ?_⟩
  · intro h
    simp only [savePageToFile, if_pos, fetchLoop_allSend attempts h]
  · intro pre payload rest hpre heq
    subst heq
    simp only [savePageToFile, if_pos, fetchLoop_split pre hpre, fetchLoop]
  · intro pre rest hpre heq
    subst heq
    simp only [savePageToFile, if_pos, fetchLoop_split pre hpre, fetchLoop]

/-- Witness for C4's amended theorem at concrete attempt sequences. -/
theorem savePageToFile_characterization_witness :
    savePageToFile true [AttemptResult.sendFailure, AttemptResult.sendFailure]
      = (.stillRetrying, [.createFile, .request, .request])
  ∧ savePageToFile true [AttemptResult.sendFailure, AttemptResult.success [7]]
      = (.fileWritten [7], [.createFile, .request, .request, .write [7], .flush])
  ∧ (savePageToFile true [AttemptResult.sendFailure, AttemptResult.bodyFailure]).1
      = FetchOutcome.panicked := by
  refine ⟨?_, ?_, ?_⟩
  · exact (savePageToFile_characterization _).1 (by decide)
  · exact (savePageToFile_characterization _).2.1 [AttemptResult.sendFailure] [7] []
      (by decide) rfl
  · exact (savePageToFile_characterization _).2.2 [AttemptResult.sendFailure] []
      (by decide) rfl

/-! ## Claim C10 -/

/-- Claim C10, confirmed: when file creation succeeds, the (truncating)
creation happens before the first network request, and when no attempt ever
succeeds the file still exists with empty content after the consumed
attempts: the filesystem effect is not atomic with download success. -/
theorem savePageToFile_creates_file_first :
    ∀ attempts : List AttemptResult,
      ((savePageToFile true attempts).2).head? = some FetchEvent.createFile
    ∧ ((∀ p, AttemptResult.success p ∉ attempts) →
        replayContent ((savePageToFile true attempts).2) none = some []) := by
  intro attempts
  constructor
  · simp [savePageToFile]
  · intro h
    simp only [savePageToFile, if_pos, replayContent]
    exact replayContent_no_mutation _ (fetchLoop_no_write attempts h) (fetchLoop_no_create attempts)
      (some [])

/-- Witness for C10 at a concrete all-failure attempt sequence. -/
theorem savePageToFile_creates_file_first_witness :
    ((savePageToFile true [AttemptResult.sendFailure, AttemptResult.bodyFailure]).2).head?
      = some FetchEvent.createFile
  ∧ replayContent ((savePageToFile true [AttemptResult.sendFailure, AttemptResult.bodyFailure]).2) none
      = some [] := by
  constructor
  · exact (savePageToFile_creates_file_first _).1
  · exact (savePageToFile_creates_file_first
      [AttemptResult.sendFailure, AttemptResult.bodyFailure]).2
      (by intro p hp; simp at hp)

/-! ## Claim C7 -/

/-- Claim C7, counterexample: in `download_package`, a failure of the first
teaching tool aborts the loop (`?`), so the second book of the package is
never attempted — per-book failures inside a package run are not isolated. -/
theorem downloadPackageLoop_counterexample :
    downloadPackageLoop [some EdukaError.internetError, none]
      = ([true, false], some EdukaError.internetError)
  ∧ (downloadPackageLoop [some EdukaError.internetError, none]).1 ≠ [true, true] := by
  constructor
  · rfl
  · decide

/-- Claim C7, amended: within one package run, per-book failures are not
isolated: all books strictly before the first failing one are attempted,
the failing one is attempted, and every book after it is skipped, the
package aborting with that first error; only an all-success run attempts
every book. -/
theorem downloadPackageLoop_aborts_at_first_failure :
    ∀ results : List (Option EdukaError),
      ((∀ r ∈ results, r = none) →
        downloadPackageLoop results = (results.map fun _ => true, none))
    ∧ (∀ pre e post, (∀ r ∈ pre, r = none) → results = pre ++ some e :: post →
        downloadPackageLoop results
          = ((pre.map fun _ => true) ++ true :: (post.map fun _ => false), some e)) := by
  intro results
  constructor
  · induction results with
    | nil => intro _; rfl
    | cons r rest ih =>
      intro h
      have hr : r = none := h r (List.mem_cons_self r rest)
      subst hr
      simp only [downloadPackageLoop, ih (fun x hx => h x (List.mem_cons_of_mem _ hx)),
        List.map_cons]
  · intro pre e post hpre heq
    subst heq
    induction pre with
    | nil => simp [downloadPackageLoop]
    | cons r rest ih =>
      have hr : r = none := hpre r (List.mem_cons_self r rest)
      subst hr
      simp only [List.cons_append, downloadPackageLoop, List.append_eq,
        ih (fun x hx => hpre x (List.mem_cons_of_mem _ hx)), List.map_cons]

/-- Witness for C7's amended theorem at concrete result lists. -/
theorem downloadPackageLoop_aborts_witness :
    downloadPackageLoop [none, none] = ([true, true], none)
  ∧ downloadPackageLoop [none, some EdukaError.pdfError, none]
      = ([true, true, false], some EdukaError.pdfError) := by
  constructor
  · exact (downloadPackageLoop_aborts_at_first_failure _).1 (by decide)
  · exact (downloadPackageLoop_aborts_at_first_failure _).2 [none] EdukaError.pdfError [none]
      (by decide) rfl

/-! ## Claim C8 -/

/-- Claim C8, confirmed: if the destination directory for a book already
exists, `download_teaching_tool` skips the whole batch, performs zero page
writes, leaves the filesystem unchanged and returns success; consequently a
second invocation on the same destination performs no additional writes. -/
theorem downloadTeachingTool_idempotent :
    ∀ (fs : FS) (bookDir : String) (pageUrls : List String),
      (bookDir ∈ fs.dirs →
        downloadTeachingTool fs bookDir pageUrls = (fs, 0, Except.ok ()))
    ∧ downloadTeachingTool (downloadTeachingTool fs bookDir pageUrls).1 bookDir pageUrls
        = ((downloadTeachingTool fs bookDir pageUrls).1, 0, Except.ok ()) := by
  intro fs d urls
  constructor
  · intro h
    simp [downloadTeachingTool, h]
  · by_cases h : d ∈ fs.dirs
    · simp [downloadTeachingTool, h]
    · simp [downloadTeachingTool, h]

/-- Witness for C8 at a concrete filesystem whose directory exists. -/
theorem downloadTeachingTool_idempotent_witness :
    downloadTeachingTool ⟨["b"], []⟩ "b" [] = (⟨["b"], []⟩, 0, Except.ok ()) := by
  exact (downloadTeachingTool_idempotent ⟨["b"], []⟩ "b" []).1 (by simp)

/-! ## Batch coordinator lemmas -/

theorem batchLoop_flatten : ∀ l p, (batchLoop l p).flatten = p ++ l := by
  intro l
  induction l with
  | nil =>
    intro p
    by_cases hp : p.isEmpty
    · simp [batchLoop, hp, List.isEmpty_iff.mp hp]
    · simp [batchLoop, hp]
  | cons i rest ih =>
    intro p
    simp only [batchLoop]
    by_cases hi : i % 10 = 0
    · simp [hi, ih]
    · simp [hi, ih]

theorem batchLoop_ne_nil : ∀ l p g, g ∈ batchLoop l p → g ≠ [] := by
  intro l
  induction l with
  | nil =>
    intro p g hg
    simp only [batchLoop] at hg
    split at hg
    · simp at hg
    · next hp =>
        simp only [List.mem_singleton] at hg
        subst hg
        intro hh
        simp [hh] at hp
  | cons i rest ih =>
    intro p g hg
    simp only [batchLoop] at hg
    split at hg
    · rcases List.mem_cons.mp hg with h | h
      · subst h; simp
      · exact ih [] g h
    · exact ih (p ++ [i]) g hg

theorem batchLoop_dropLast :
    ∀ l p, ∀ g ∈ (batchLoop l p).dropLast, ∃ m, g.getLast? = some m ∧ m % 10 = 0 := by
  intro l
  induction l with
  | nil =>
    intro p g hg
    simp only [batchLoop] at hg
    split at hg <;> simp at hg
  | cons i rest ih =>
    intro p g hg
    simp only [batchLoop] at hg
    by_cases hi : i % 10 = 0
    · rw [if_pos hi] at hg
      rcases hB : batchLoop rest [] with _ | ⟨b, bs⟩
      · rw [hB] at hg; simp at hg
      · rw [hB, List.dropLast_cons₂] at hg
        rcases List.mem_cons.mp hg with h | h
        · subst h
          exact ⟨i, List.getLast?_concat _, hi⟩
        · exact ih [] g (by rw [hB]; exact h)
    · rw [if_neg hi] at hg
      exact ih (p ++ [i]) g hg

theorem batchLoop_length_le :
    ∀ k a p, p.length ≤ (a + 9) % 10 → ∀ g ∈ batchLoop (List.range' a k) p, g.length ≤ 10 := by
  intro k
  induction k with
  | zero =>
    intro a p hp g hg
    simp only [List.range', batchLoop] at hg
    split at hg
    · simp at hg
    · simp only [List.mem_singleton] at hg
      subst hg
      omega
  | succ k ih =>
    intro a p hp g hg
    rw [List.range'_succ] at hg
    simp only [batchLoop] at hg
    by_cases ha : a % 10 = 0
    · rw [if_pos ha] at hg
      rcases List.mem_cons.mp hg with h | h
      · subst h
        simp only [List.length_append, List.length_singleton]
        omega
      · exact ih (a + 1) [] (by simp) g h
    · rw [if_neg ha] at hg
      refine ih (a + 1) (p ++ [a]) ?_ g hg
      simp only [List.length_append, List.length_singleton]
      omega

theorem codeBatches_succ (m : Nat) :
    codeBatches (m + 1) = [0] :: batchLoop (List.range' 1 m) [] := by
  rw [codeBatches, List.range_eq_range', List.range'_succ]
  simp [batchLoop]

/-! ## Claim C3 -/

/-- Claim C3, counterexample: the await fires when `i % 10 == 0`, which is
already true at `i = 0`, so the batches for 11 locators are `{0}` and
`{1,…,10}`, not the groups `{0,…,9}` and `{10}` that "a new group starts
every B locators by original sequence position" (B = 10) describes: locator
10 is launched in the same group as locator 1, i.e. before locator 1's
fetch has completed. -/
theorem codeBatches_offbyone_counterexample :
    codeBatches 11 = [[0], [1, 2, 3, 4, 5, 6, 7, 8, 9, 10]]
  ∧ specBatches 11 = [[0, 1, 2, 3, 4, 5, 6, 7, 8, 9], [10]]
  ∧ codeBatches 11 ≠ specBatches 11 := by
  refine ⟨by decide, by decide, by decide⟩

/-- Claim C3, amended: the coordinator launches fetches in consecutive
groups that partition the locator sequence in order (so every fetch is
launched exactly once and all complete before the coordinator returns);
each group is awaited in full before the next group is launched, so the
number of fetches in flight never exceeds a group's size, which is at most
B = 10; but the group boundary is drawn after every index divisible by 10
(every group except the final one ends at such an index), so for a
non-empty sequence the first group is the singleton `{0}` and the following
groups hold 10 locators each. -/
theorem codeBatches_characterization :
    ∀ n : Nat,
      (codeBatches n).flatten = List.range n
    ∧ (∀ g ∈ codeBatches n, g ≠ [] ∧ g.length ≤ 10)
    ∧ (∀ g ∈ (codeBatches n).dropLast, ∃ m, g.getLast? = some m ∧ m % 10 = 0)
    ∧ (1 ≤ n → (codeBatches n).head? = some [0]) := by
  intro n
  refine ⟨?_, ?_, ?_, ?_⟩
  · rw [codeBatches, batchLoop_flatten]
    rfl
  · intro g hg
    refine ⟨batchLoop_ne_nil _ _ g hg, ?_⟩
    rw [codeBatches, List.range_eq_range'] at hg
    exact batchLoop_length_le n 0 [] (by simp) g hg
  · intro g hg
    exact batchLoop_dropLast _ _ g hg
  · intro hn
    obtain ⟨m, rfl⟩ : ∃ m, n = m + 1 := ⟨n - 1, by omega⟩
    rw [codeBatches_succ]
    rfl

/-- Witness for C3's amended theorem at 21 locators
(batches `[[0], [1,…,10], [11,…,20]]`). -/
theorem codeBatches_characterization_witness :
    (codeBatches 21).flatten = List.range 21
  ∧ (([1, 2, 3, 4, 5, 6, 7, 8, 9, 10] : List Nat) ≠ []
      ∧ ([1, 2, 3, 4, 5, 6, 7, 8, 9, 10] : List Nat).length ≤ 10)
  ∧ (∃ m, ([1, 2, 3, 4, 5, 6, 7, 8, 9, 10] : List Nat).getLast? = some m ∧ m % 10 = 0)
  ∧ (codeBatches 21).head? = some [0] := by
  have h := codeBatches_characterization 21
  exact ⟨h.1, h.2.1 _ (by decide), h.2.2.1 _ (by decide), h.2.2.2 (by decide)⟩

/-! ## File-name lemmas -/

theorem digitChar_toNat : ∀ m, m < 10 → (Nat.digitChar m).toNat = 48 + m := by decide

theorem numKeyAux_digits (n : Nat) : ∀ acc tail,
    numKeyAux ((natDigitsRev n).reverse ++ tail) acc
      = numKeyAux tail (acc * 10 ^ (natDigitsRev n).length + n) := by
  induction n using Nat.strong_induction_on with
  | _ n ih =>
    intro acc tail
    by_cases h : n < 10
    · rw [natDigitsRev, dif_pos h]
      have hd : (Nat.digitChar n).toNat = 48 + n := digitChar_toNat n h
      simp only [List.reverse_singleton, List.singleton_append, List.length_singleton, pow_one]
      rw [numKeyAux, if_pos (by omega), hd]
      congr 1
      omega
    · rw [natDigitsRev, dif_neg h]
      have hlt : n / 10 < n := by omega
      have hd : (Nat.digitChar (n % 10)).toNat = 48 + n % 10 := digitChar_toNat _ (by omega)
      simp only [List.reverse_cons, List.length_cons]
      rw [List.append_assoc, ih (n / 10) hlt acc ([Nat.digitChar (n % 10)] ++ tail),
        List.singleton_append, numKeyAux, if_pos (by omega), hd]
      congr 1
      have hmod : n / 10 * 10 + n % 10 = n := by omega
      calc (acc * 10 ^ (natDigitsRev (n / 10)).length + n / 10) * 10 + (48 + n % 10 - 48)
          = acc * (10 ^ (natDigitsRev (n / 10)).length * 10) + (n / 10 * 10 + n % 10) := by
            rw [show 48 + n % 10 - 48 = n % 10 from by omega]; ring
        _ = acc * 10 ^ ((natDigitsRev (n / 10)).length + 1) + n := by
            rw [hmod, pow_succ]

theorem numKey_fileName (i : Nat) : numKey (fileName i) = i := by
  rw [numKey, fileName, String.data_append, natToString]
  have hpng : (".png" : String).data = ['.', 'p', 'n', 'g'] := rfl
  rw [show (String.mk (natDigitsRev i).reverse).data = (natDigitsRev i).reverse from rfl, hpng,
    numKeyAux_digits, numKeyAux, if_neg (by decide)]
  omega

/-! ## Claim C5 -/

/-- Claim C5, confirmed: the coordinator writes exactly one file per
locator, the base names being the zero-based index rendered in decimal plus
the fixed `.png` extension, in index order; the numeric sort key of the
name of index `i` is `i` itself, the written sequence is strictly sorted
under that key, and the numeric sort used by the assembler
(`ls *.png | sort -n`) leaves it unchanged — page order equals locator
order. -/
theorem writtenFiles_index_order :
    ∀ n : Nat,
      writtenFiles n = (List.range n).map fileName
    ∧ (writtenFiles n).map numKey = List.range n
    ∧ List.Pairwise (fun a b => numKey a < numKey b) (writtenFiles n)
    ∧ (writtenFiles n).mergeSort (fun a b => decide (numKey a ≤ numKey b)) = writtenFiles n := by
  intro n
  have h1 : writtenFiles n = (List.range n).map fileName := by
    rw [writtenFiles, codeBatches, batchLoop_flatten]
    rfl
  have hcomp : numKey ∘ fileName = id := funext numKey_fileName
  have h3 : List.Pairwise (fun a b => numKey a < numKey b) (writtenFiles n) := by
    rw [h1, List.pairwise_map]
    simp only [numKey_fileName]
    exact List.pairwise_lt_range n
  refine ⟨h1, ?_, h3, ?_⟩
  · rw [h1, List.map_map, hcomp, List.map_id]
  · exact List.mergeSort_of_sorted (h3.imp (fun h => by simp [le_of_lt h]))

/-! ## Resolver lemmas -/

theorem resolvePage_ok_elim {pageCount : Nat} {shift : Int} {b : Bookmark} {pn : Nat}
    (h : resolvePage pageCount shift b = Except.ok pn) :
    pn = physPage shift b ∧ 1 ≤ pn ∧ pn ≤ pageCount := by
  simp only [resolvePage] at h
  split at h
  · next hc =>
      injection h with h
      subst h
      exact ⟨rfl, hc⟩
  · exact absurd h (by simp)

/-! ## Claim C2 -/

/-- Claim C2, counterexample: a node whose `startPage` is the zero sentinel
and which has no children does not make resolution fail: the code falls
back to the literal page value `0`, so with PageShift = −3 and a 5-page
document the node resolves to physical page `0 − (−3) = 3`. -/
theorem resolvePage_childless_zero_counterexample :
    ¬ (∀ (pageCount : Nat) (shift : Int) (b : Bookmark),
        b.startPage = 0 → b.lessons = [] →
        resolvePage pageCount shift b = Except.error EdukaError.positionOffsetError) := by
  intro h
  exact absurd (h 5 (-3) (.mk "X" 0 []) rfl rfl) (by decide)

/-- Claim C2, amended: with `directPage` present and non-zero the resolver
computes `directPage − PageShift`; with the zero sentinel it falls back to
the first child's `directPage`; but with the zero sentinel and no children
it falls back to the literal value `0` rather than failing outright — the
computed page is always truncated to a `u32`, equals the exact difference
whenever that difference fits in `[0, 2^32)`, and resolution fails exactly
when the computed page is absent from the document, which for the
childless-zero case is guaranteed only for `PageShift ≥ 0` (with a document
of fewer than `2^32 − PageShift` pages). -/
theorem resolvePage_characterization :
    ∀ (pageCount : Nat) (shift : Int) (b : Bookmark),
      (b.startPage ≠ 0 →
        physPage shift b = (((b.startPage : Int) - shift) % 4294967296).toNat)
    ∧ (∀ c cs, b.startPage = 0 → b.lessons = c :: cs →
        physPage shift b = (((c.startPage : Int) - shift) % 4294967296).toNat)
    ∧ (b.startPage = 0 → b.lessons = [] →
        physPage shift b = (((0 : Int) - shift) % 4294967296).toNat)
    ∧ (0 ≤ (pageValue b : Int) - shift → (pageValue b : Int) - shift < 4294967296 →
        (physPage shift b : Int) = (pageValue b : Int) - shift)
    ∧ (resolvePage pageCount shift b
        = if 1 ≤ physPage shift b ∧ physPage shift b ≤ pageCount
          then Except.ok (physPage shift b) else Except.error EdukaError.positionOffsetError)
    ∧ (b.startPage = 0 → b.lessons = [] → 0 ≤ shift → (pageCount : Int) < 4294967296 - shift →
        resolvePage pageCount shift b = Except.error EdukaError.positionOffsetError) := by
  intro pageCount shift b
  refine ⟨?_, ?_, ?_, ?_, rfl, ?_⟩
  · intro h0
    simp [physPage, pageValue, h0]
  · intro c cs h0 hls
    simp [physPage, pageValue, h0, hls]
  · intro h0 hls
    simp [physPage, pageValue, h0, hls]
  · intro hlo hhi
    rw [physPage, Int.emod_eq_of_lt hlo hhi, Int.toNat_of_nonneg hlo]
  · intro h0 hls hsh hpc
    have hpv : pageValue b = 0 := by simp [pageValue, h0, hls]
    simp only [resolvePage, physPage, hpv]
    split
    · next hc => exfalso; omega
    · rfl

/-- Witness for C2's amended theorem; in particular it exhibits the spec's
example: root `directPage = 0` with one child `directPage = 5` and
PageShift = 2 resolves to physical page 3, identical to the child's own
resolved page. -/
theorem resolvePage_characterization_witness :
    physPage 2 (Bookmark.mk "k" 7 []) = (((7 : Int) - 2) % 4294967296).toNat
  ∧ physPage 2 (Bookmark.mk "r" 0 [Bookmark.mk "c" 5 []])
      = (((5 : Int) - 2) % 4294967296).toNat
  ∧ physPage 7 (Bookmark.mk "z" 0 []) = (((0 : Int) - 7) % 4294967296).toNat
  ∧ (physPage 2 (Bookmark.mk "r" 0 [Bookmark.mk "c" 5 []]) : Int) = (5 : Int) - 2
  ∧ (physPage 2 (Bookmark.mk "c" 5 []) : Int) = (5 : Int) - 2
  ∧ resolvePage 5 7 (Bookmark.mk "z" 0 []) = Except.error EdukaError.positionOffsetError := by
  refine ⟨?_, ?_, ?_, ?_, ?_, ?_⟩
  · simpa using (resolvePage_characterization 10 2 (Bookmark.mk "k" 7 [])).1 (by decide)
  · simpa using (resolvePage_characterization 10 2
      (Bookmark.mk "r" 0 [Bookmark.mk "c" 5 []])).2.1 (Bookmark.mk "c" 5 []) [] rfl rfl
  · simpa using (resolvePage_characterization 10 7 (Bookmark.mk "z" 0 [])).2.2.1 rfl rfl
  · simpa using (resolvePage_characterization 10 2
      (Bookmark.mk "r" 0 [Bookmark.mk "c" 5 []])).2.2.2.1 (by decide) (by decide)
  · simpa using (resolvePage_characterization 10 2
      (Bookmark.mk "c" 5 [])).2.2.2.1 (by decide) (by decide)
  · exact (resolvePage_characterization 5 7 (Bookmark.mk "z" 0 [])).2.2.2.2.2
      rfl rfl (by decide) (by decide)

/-! ## Outline builder lemmas -/

theorem addBookmarks_state (pageCount : Nat) (shift : Int) :
    ∀ bs : List Bookmark, ∀ parent n, ∃ k new e, ∀ es : List Entry,
      addBookmarks pageCount shift bs parent (n, es) = ((k, es ++ new), e) := by
  intro bs
  induction bs using bookmarkListInd with
  | hnil =>
    intro parent n
    exact ⟨n, [], none, fun es => by simp [addBookmarks]⟩
  | hcons t s ls rest ihls ihrest =>
    intro parent n
    cases hres : resolvePage pageCount shift (.mk t s ls) with
    | error e0 =>
      exact ⟨n, [], some e0, fun es => by simp [addBookmarks, hres]⟩
    | ok pn =>
      obtain ⟨k1, new1, e1, h1⟩ := ihls (some n) (n + 1)
      cases e1 with
      | some err =>
        refine ⟨k1, ⟨n, unidecode t, pn, parent⟩ :: new1, some err, fun es => ?_⟩
        simp only [addBookmarks, hres, h1, List.append_assoc, List.singleton_append]
      | none =>
        obtain ⟨k2, new2, e2, h2⟩ := ihrest parent k1
        refine ⟨k2, ⟨n, unidecode t, pn, parent⟩ :: new1 ++ new2, e2, fun es => ?_⟩
        simp only [addBookmarks, hres, h1, h2, List.append_assoc, List.singleton_append,
          List.cons_append, List.nil_append]

theorem addBookmarks_ok (pageCount : Nat) (shift : Int) :
    ∀ bs : List Bookmark, ∀ parent n,
      (addBookmarks pageCount shift bs parent (n, [])).2 = none →
      addBookmarks pageCount shift bs parent (n, [])
        = ((n + countNodes bs, specOutline shift bs parent n), none) := by
  intro bs
  induction bs using bookmarkListInd with
  | hnil =>
    intro parent n _
    simp [addBookmarks, countNodes, specOutline]
  | hcons t s ls rest ihls ihrest =>
    intro parent n hnone
    cases hres : resolvePage pageCount shift (.mk t s ls) with
    | error e0 =>
      exfalso
      simp [addBookmarks, hres] at hnone
    | ok pn =>
      have hpn : pn = physPage shift (.mk t s ls) := (resolvePage_ok_elim hres).1
      obtain ⟨k1, new1, e1, h1⟩ := addBookmarks_state pageCount shift ls (some n) (n + 1)
      cases e1 with
      | some err =>
        exfalso
        simp only [addBookmarks, hres, h1] at hnone
        simp at hnone
      | none =>
        obtain ⟨k2, new2, e2, h2⟩ := addBookmarks_state pageCount shift rest parent k1
        have he2 : e2 = none := by
          simp only [addBookmarks, hres, h1, h2] at hnone
          simpa using hnone
        subst he2
        have hls0 : addBookmarks pageCount shift ls (some n) (n + 1, []) = ((k1, new1), none) := by
          simpa using h1 []
        have hlsOk := ihls (some n) (n + 1) (by rw [hls0])
        rw [hls0] at hlsOk
        have hk1 : k1 = n + 1 + countNodes ls := by
          have := congrArg (fun q => q.1.1) hlsOk
          simpa using this
        have hnew1 : new1 = specOutline shift ls (some n) (n + 1) := by
          have := congrArg (fun q => q.1.2) hlsOk
          simpa using this
        have hrest0 : addBookmarks pageCount shift rest parent (k1, []) = ((k2, new2), none) := by
          simpa using h2 []
        have hrestOk := ihrest parent k1 (by rw [hrest0])
        rw [hrest0] at hrestOk
        have hk2 : k2 = k1 + countNodes rest := by
          have := congrArg (fun q => q.1.1) hrestOk
          simpa using this
        have hnew2 : new2 = specOutline shift rest parent k1 := by
          have := congrArg (fun q => q.1.2) hrestOk
          simpa using this
        simp only [addBookmarks, hres, h1, h2, countNodes, specOutline]
        rw [hk2, hk1, hnew2, hnew1, hk1, ← hpn]
        simp only [List.nil_append, List.singleton_append, List.cons_append, Prod.mk.injEq,
          and_true, true_and]
        omega

theorem specOutline_titles (shift : Int) :
    ∀ bs : List Bookmark, ∀ parent n,
      (specOutline shift bs parent n).map Entry.title = (preorderTitles bs).map unidecode := by
  intro bs
  induction bs using bookmarkListInd with
  | hnil => intro parent n; simp [specOutline, preorderTitles]
  | hcons t s ls rest ihls ihrest =>
    intro parent n
    simp [specOutline, preorderTitles, ihls, ihrest]

theorem addBookmarks_titles (pageCount : Nat) (shift : Int) :
    ∀ bs : List Bookmark, ∀ parent n,
      ∃ tl, (preorderTitles bs).map unidecode
        = ((addBookmarks pageCount shift bs parent (n, [])).1.2).map Entry.title ++ tl := by
  intro bs
  induction bs using bookmarkListInd with
  | hnil =>
    intro parent n
    exact ⟨[], by simp [addBookmarks, preorderTitles]⟩
  | hcons t s ls rest ihls ihrest =>
    intro parent n
    cases hres : resolvePage pageCount shift (.mk t s ls) with
    | error e0 =>
      refine ⟨(preorderTitles (.mk t s ls :: rest)).map unidecode, ?_⟩
      simp [addBookmarks, hres]
    | ok pn =>
      obtain ⟨k1, new1, e1, h1⟩ := addBookmarks_state pageCount shift ls (some n) (n + 1)
      have hls0 : addBookmarks pageCount shift ls (some n) (n + 1, []) = ((k1, new1), e1) := by
        simpa using h1 []
      cases e1 with
      | some err =>
        obtain ⟨tl1, htl1⟩ := ihls (some n) (n + 1)
        rw [hls0] at htl1
        refine ⟨tl1 ++ (preorderTitles rest).map unidecode, ?_⟩
        simp only [addBookmarks, hres, h1]
        simp [preorderTitles, htl1]
      | none =>
        have hlsOk := addBookmarks_ok pageCount shift ls (some n) (n + 1) (by rw [hls0])
        rw [hls0] at hlsOk
        have hnew1 : new1 = specOutline shift ls (some n) (n + 1) := by
          have := congrArg (fun q => q.1.2) hlsOk
          simpa using this
        obtain ⟨k2, new2, e2, h2⟩ := addBookmarks_state pageCount shift rest parent k1
        have hrest0 : addBookmarks pageCount shift rest parent (k1, []) = ((k2, new2), e2) := by
          simpa using h2 []
        obtain ⟨tl2, htl2⟩ := ihrest parent k1
        rw [hrest0] at htl2
        refine ⟨tl2, ?_⟩
        cases e2 with
        | some err2 =>
          simp only [addBookmarks, hres, h1, h2]
          simp [preorderTitles, hnew1, specOutline_titles, htl2]
        | none =>
          simp only [addBookmarks, hres, h1, h2]
          simp [preorderTitles, hnew1, specOutline_titles, htl2]

/-! ## Claim C1 -/

/-- Claim C1, counterexample: in the tree `[A (page 100), B (page 5)]` with
a 10-page document and zero shift, node `A`'s resolved page is absent, and
although sibling `B` resolves fine on its own, no outline entry at all is
created: the `?` on the failed lookup returns from the whole
`add_bookmarks` call, so the failure is not confined to `A`'s subtree. -/
theorem addBookmarks_failure_not_isolated_counterexample :
    resolvePage 10 0 (Bookmark.mk "B" 5 []) = Except.ok 5
  ∧ addBookmarks 10 0 [Bookmark.mk "A" 100 [], Bookmark.mk "B" 5 []] none (0, [])
      = ((0, []), some EdukaError.positionOffsetError) := by
  have hres : resolvePage 10 0 (Bookmark.mk "A" 100 [])
      = Except.error EdukaError.positionOffsetError := by decide
  exact ⟨by decide, by simp [addBookmarks, hres]⟩

/-- Claim C1, amended: when a node's resolved physical page is absent from
the assembled document, the `PositionOffsetError` (`PageOffsetMismatch`)
condition is raised for that node and the whole outline build aborts with
it: the node's children are not attempted, and neither are its later
siblings nor any node after it in pre-order — the state is returned
unchanged from the failing node on; only entries created strictly before
the failing node survive. -/
theorem addBookmarks_node_failure_aborts_rest :
    ∀ (pageCount : Nat) (shift : Int) (b : Bookmark) (rest : List Bookmark)
      (parent : Option Nat) (st : Nat × List Entry) (e : EdukaError),
      resolvePage pageCount shift b = Except.error e →
      addBookmarks pageCount shift (b :: rest) parent st = (st, some e) := by
  intro pageCount shift b rest parent st e hres
  cases b with
  | mk t s ls => simp [addBookmarks, hres]

/-- Witness for C1's amended theorem at a concrete failing head node. -/
theorem addBookmarks_node_failure_aborts_rest_witness :
    addBookmarks 7 1 [Bookmark.mk "A" 200 [], Bookmark.mk "B" 5 []] none (3, [])
      = ((3, []), some EdukaError.positionOffsetError) :=
  addBookmarks_node_failure_aborts_rest 7 1 (Bookmark.mk "A" 200 []) [Bookmark.mk "B" 5 []]
    none (3, []) EdukaError.positionOffsetError (by decide)

/-! ## Claim C6 -/

/-- Claim C6, confirmed: the outline builder visits nodes in pre-order —
the stored (sanitized) title sequence is always an initial segment of the
pre-order title sequence of the source tree, and on a run that returns
success the created entries are exactly the pre-order entry list: one entry
per node, child entries carrying their parent's fresh handle (or none at
the root), so the stored title sequence equals the pre-order traversal. -/
theorem addBookmarks_preorder :
    ∀ (pageCount : Nat) (shift : Int) (bs : List Bookmark),
      (∃ tl, (preorderTitles bs).map unidecode
        = ((addBookmarks pageCount shift bs none (0, [])).1.2).map Entry.title ++ tl)
    ∧ ((addBookmarks pageCount shift bs none (0, [])).2 = none →
        (addBookmarks pageCount shift bs none (0, [])).1.2 = specOutline shift bs none 0
        ∧ ((addBookmarks pageCount shift bs none (0, [])).1.2).map Entry.title
            = (preorderTitles bs).map unidecode) := by
  intro pageCount shift bs
  constructor
  · exact addBookmarks_titles pageCount shift bs none 0
  · intro hok
    have h := addBookmarks_ok pageCount shift bs none 0 hok
    have hent : (addBookmarks pageCount shift bs none (0, [])).1.2
        = specOutline shift bs none 0 := by
      rw [h]
    exact ⟨hent, by rw [hent, specOutline_titles]⟩

/-- Witness for C6 at a concrete three-node tree that fully resolves. -/
theorem addBookmarks_preorder_witness :
    (addBookmarks 10 0 [Bookmark.mk "r" 1 [Bookmark.mk "c" 2 []], Bookmark.mk "s" 3 []]
        none (0, [])).1.2
      = specOutline 0 [Bookmark.mk "r" 1 [Bookmark.mk "c" 2 []], Bookmark.mk "s" 3 []] none 0
  ∧ ((addBookmarks 10 0 [Bookmark.mk "r" 1 [Bookmark.mk "c" 2 []], Bookmark.mk "s" 3 []]
        none (0, [])).1.2).map Entry.title
      = (preorderTitles [Bookmark.mk "r" 1 [Bookmark.mk "c" 2 []], Bookmark.mk "s" 3 []]).map
          unidecode := by
  have h1 : resolvePage 10 0 (Bookmark.mk "r" 1 [Bookmark.mk "c" 2 []]) = Except.ok 1 := by decide
  have h2 : resolvePage 10 0 (Bookmark.mk "c" 2 []) = Except.ok 2 := by decide
  have h3 : resolvePage 10 0 (Bookmark.mk "s" 3 []) = Except.ok 3 := by decide
  exact (addBookmarks_preorder 10 0 _).2 (by simp [addBookmarks, h1, h2, h3])

/-! ## Claim C9 -/

/-- Claim C9, confirmed: sanitization is the pure function `unidecode`
(hence deterministic), its output is always ASCII, sanitizing twice equals
sanitizing once, and every title stored in the outline by the builder is
ASCII (it is the sanitized image of some source title). -/
theorem unidecode_ascii_idempotent :
    (∀ s : String, (∀ c ∈ (unidecode s).data, c.toNat < 128)
      ∧ unidecode (unidecode s) = unidecode s)
  ∧ (∀ (pageCount : Nat) (shift : Int) (bs : List Bookmark) (ent : Entry),
      ent ∈ (addBookmarks pageCount shift bs none (0, [])).1.2 →
      ∀ c ∈ (Entry.title ent).data, c.toNat < 128) := by
  constructor
  · intro s
    constructor
    · intro c hc
      rw [data_unidecode] at hc
      exact unidecodeChars_ascii _ c hc
    · show String.mk (unidecodeChars (unidecodeChars s.data)) = String.mk (unidecodeChars s.data)
      rw [unidecodeChars_idem]
  · intro pageCount shift bs ent hent c hc
    obtain ⟨tl, htl⟩ := addBookmarks_titles pageCount shift bs none 0
    have h1 : Entry.title ent
        ∈ ((addBookmarks pageCount shift bs none (0, [])).1.2).map Entry.title :=
      List.mem_map_of_mem Entry.title hent
    have h2 : Entry.title ent ∈ (preorderTitles bs).map unidecode := by
      rw [htl]
      exact List.mem_append_left _ h1
    obtain ⟨src, _, hsrc⟩ := List.mem_map.mp h2
    rw [← hsrc, data_unidecode] at hc
    exact unidecodeChars_ascii _ c hc

/-- Witness for C9 at the concrete title `"Š"` (sanitized to `"S"`). -/
theorem unidecode_ascii_idempotent_witness :
    Char.toNat 's' < 128
  ∧ unidecode (unidecode (String.mk ['š'])) = unidecode (String.mk ['š'])
  ∧ Char.toNat 'S' < 128 := by
  have h := unidecode_ascii_idempotent
  have hres : resolvePage 10 0 (Bookmark.mk (String.mk ['Š']) 5 []) = Except.ok 5 := by decide
  refine ⟨?_, (h.1 (String.mk ['š'])).2, ?_⟩
  · exact (h.1 (String.mk ['š'])).1 's' (by decide)
  · refine h.2 10 0 [Bookmark.mk (String.mk ['Š']) 5 []]
      ⟨0, unidecode (String.mk ['Š']), 5, none⟩ ?_ 'S' ?_
    · simp [addBookmarks, hres]
    · decide

end Eduka
